import Mathlib
/-!
Verification of the cost-based query-optimization core extracted from the
repository: the column-id set (`pkg/sql/opt/colset.go`), the aggregation
builder (`optbuilder` aggregation file), the constant inliner
(`pkg/sql/opt/norm/inline.go`), and the cost model
(`pkg/sql/opt/xform/coster.go`).

Each Go function relevant to a claim is shallowly embedded as an executable
Lean definition; Go's `float64` costs are modelled as exact rationals `ℚ`,
Go panics as `Option.none`, and Go's `math.Log2` as an explicit function
parameter (constrained only where a theorem needs its monotonicity).
-/
namespace CockroachOpt

/-- `opt.ColumnID`: an integer identifying a column. -/
abbrev ColumnID := Nat

/-- `opt.ColSet` from `pkg/sql/opt/colset.go`. The wrapped `util.FastIntSet`
is not part of the source corpus, so the underlying set is *modelled from the
spec*: "an unordered, deduplicated set of integer column identifiers"
(a `Finset ℕ`). The Go mutating receivers are embedded as pure functions
returning the updated set. -/
structure ColSet where
  set : Finset ColumnID
  deriving DecidableEq
namespace ColSet

/-- `(s *ColSet) Add(col)` — adds a column to the set. -/
def Add (s : ColSet) (col : ColumnID) : ColSet := ⟨insert col s.set⟩

/-- `(s ColSet) Contains(col)` — membership test. -/
def Contains (s : ColSet) (col : ColumnID) : Bool := decide (col ∈ s.set)

/-- `(s ColSet) Empty()` — true if the set is empty. -/
def Empty (s : ColSet) : Bool := decide (s.set = ∅)

/-- `(s ColSet) Len()` — number of columns in the set. -/
def Len (s : ColSet) : Nat := s.set.card

/-- `(s ColSet) Union(rhs)` — the union of `s` and `rhs` as a new set. -/
def Union (s rhs : ColSet) : ColSet := ⟨s.set ∪ rhs.set⟩

/-- The empty `ColSet` (Go zero value `opt.ColSet{}`). -/
def empty : ColSet := ⟨∅⟩
end ColSet

/-! ## Aggregation builder (optbuilder aggregation file) -/

/-- A `scopeColumn` as used by `constructGroupBy`: its column id and its
optional defining scalar (`nil` for a pass-through column). The scalar
expression type is abstract (`α`). -/
structure ScopeColumn (α : Type) where
  id : ColumnID
  scalar : Option α

/-- `memo.AggregationsItem`: a built aggregation (`Agg` scalar) together with
its output column (`ColPrivate.Col`). -/
structure AggregationsItem (α : Type) where
  agg : α
  col : ColumnID
  deriving DecidableEq

/-- `memo.GroupingPrivate` as filled in by `constructGroupBy`. The call
`private.Ordering.FromOrderingWithOptCols(ordering, groupingColSet)` lives in
the (absent) `memo` package; *modelled from the spec*: the intra-group
ordering inherited from the input is kept, with the grouping columns as
optional columns. -/
structure GroupingPrivate where
  groupingCols : ColSet
  ordering : List ColumnID
  orderingOptCols : ColSet

/-- The result of `constructGroupBy`: either the scalar grouping operator
(factory call `ConstructScalarGroupBy`) or the ordinary one
(`ConstructGroupBy`). `ρ` is the type of the input relational expression. -/
inductive GroupByExprResult (ρ α : Type) where
  | scalarGroupBy (input : ρ) (aggs : List (AggregationsItem α)) (priv : GroupingPrivate)
  | groupBy (input : ρ) (aggs : List (AggregationsItem α)) (priv : GroupingPrivate)

/-- True exactly when the constructed operator is the scalar variant. -/
def GroupByExprResult.isScalar {ρ α : Type} : GroupByExprResult ρ α → Bool
  | .scalarGroupBy .. => true
  | .groupBy .. => false

/-- The deduplication loop of `constructGroupBy` (lines 169–183): walk
`aggCols`, skip columns whose id was already seen, and panic (`none`) on a
pass-through column (`scalar == nil`). -/
def constructGroupByLoop {α : Type} :
    List (ScopeColumn α) → ColSet → List (AggregationsItem α) →
    Option (List (AggregationsItem α))
  | [], _, aggs => some aggs
  | c :: rest, colSet, aggs =>
    if colSet.Contains c.id then
      constructGroupByLoop rest colSet aggs
    else
      match c.scalar with
      | none => none
      | some s => constructGroupByLoop rest (colSet.Add c.id) (aggs ++ [⟨s, c.id⟩])

/-- `(b *Builder) constructGroupBy(input, groupingColSet, aggCols, ordering)`
(lines 162–196): deduplicate the aggregation columns, build the
`GroupingPrivate`, and construct the scalar variant iff `groupingColSet` is
empty. A panic in the dedup loop is `none`. -/
def constructGroupBy {ρ α : Type} (input : ρ) (groupingColSet : ColSet)
    (aggCols : List (ScopeColumn α)) (ordering : List ColumnID) :
    Option (GroupByExprResult ρ α) :=
  match constructGroupByLoop aggCols ColSet.empty [] with
  | none => none
  | some aggs =>
    let priv : GroupingPrivate :=
      { groupingCols := groupingColSet, ordering := ordering,
        orderingOptCols := groupingColSet }
    if groupingColSet.Empty then
      some (.scalarGroupBy input aggs priv)
    else
      some (.groupBy input aggs priv)

/-! ## `buildGrouping` dedup (lines 442–456) -/

/-- The per-scope grouping state touched by the loop at the end of
`buildGrouping`: the `groupStrs` map from the symbolic string of each GROUP BY
expression to its grouping column, the columns added to the output scope, and
a fresh-column allocator standing in for `b.addColumn` (the scope machinery is
outside the source corpus; *modelled from the spec*: "otherwise allocate a new
output column ... and record the string→column mapping"). -/
structure GroupingState where
  groupStrs : List (String × ColumnID)
  outCols : List ColumnID
  nextId : ColumnID
  deriving DecidableEq

/-- The final loop of `buildGrouping`: for each (resolved, flattened) GROUP BY
expression, compute its symbolic string (`symbolicExprStr`, embedded as the
function argument `exprStr`); if that string is already in `groupStrs`, skip;
otherwise add a new grouping column and record the mapping. -/
def buildGroupingLoop {E : Type} (exprStr : E → String) :
    List E → GroupingState → GroupingState
  | [], st => st
  | e :: rest, st =>
    let s := exprStr e
    if (st.groupStrs.lookup s).isSome then
      buildGroupingLoop exprStr rest st
    else
      buildGroupingLoop exprStr rest
        { groupStrs := st.groupStrs ++ [(s, st.nextId)],
          outCols := st.outCols ++ [st.nextId],
          nextId := st.nextId + 1 }

/-- The grouping state at the start of `buildGroupingList`: empty `groupStrs`
map and no grouping columns built yet. -/
def initGroupingState : GroupingState := ⟨[], [], 1⟩

/-! ## `buildAggregateFunction` dedup (lines 488–547) -/

/-- `aggregateInfo` restricted to the fields compared by the dedup:
function definition (`memo.FunctionPrivate`, embedded as its name), the
DISTINCT flag, the built argument scalars, the optional FILTER scalar, and the
output column. `α` is the scalar expression type. -/
structure AggregateInfo (α : Type) where
  defName : String
  distinct : Bool
  args : List α
  filter : Option α
  col : ColumnID
  deriving DecidableEq

/-- The aggregation scopes touched by `buildAggregateFunction`: the temporary
scope's columns, the grouping input scope's columns, the output scope's
columns, the discovered-aggregates list of the grouping scope, and a
fresh-column allocator standing in for column synthesis. -/
structure AggScopeState (α : Type) where
  tempCols : List ColumnID
  aggInCols : List ColumnID
  outCols : List ColumnID
  aggs : List (AggregateInfo α)
  nextId : ColumnID
  deriving DecidableEq

/-- `(s *scope) findAggregate(info)` lives in the (absent) scope file;
*modelled from the spec*: "Deduplicate against existing AggregateCallInfo
entries with identical (definition, args, distinct, filter); if found, reuse
its output column." -/
def findAggregate {α : Type} [DecidableEq α] (aggs : List (AggregateInfo α))
    (info : AggregateInfo α) : Option ColumnID :=
  (aggs.find? fun a =>
    decide (a.defName = info.defName ∧ a.args = info.args ∧
      a.distinct = info.distinct ∧ a.filter = info.filter)).map (·.col)

/-- `(b *Builder) buildAggregateFunction` (lines 488–547). The argument
building (`buildAggArg`, which calls the absent `addColumn`/`buildScalar`) is
*modelled from the spec*: each argument, and the FILTER expression if present,
synthesizes one new column in the temporary scope; the built scalars are the
given `args`/`filter`. `aggInIsTemp` records whether `endAggFunc` (absent)
returned the temporary scope itself as `aggInScope`. After the dedup lookup,
either the existing output column is reused and the temporary columns are
truncated away, or a new output column is synthesized, the temporary columns
are moved to `aggInScope`, and the info is appended to the aggregate list. -/
def buildAggregateFunction {α : Type} [DecidableEq α] (st : AggScopeState α)
    (defName : String) (distinct : Bool) (args : List α) (filter : Option α)
    (aggInIsTemp : Bool) : AggScopeState α × AggregateInfo α :=
  let tempScopeColsBefore := st.tempCols.length
  let numNew := args.length + (if filter.isSome then 1 else 0)
  let newCols := (List.range numNew).map (fun i => st.nextId + i)
  let st1 : AggScopeState α :=
    { st with tempCols := st.tempCols ++ newCols, nextId := st.nextId + numNew }
  let info : AggregateInfo α :=
    { defName := defName, distinct := distinct, args := args, filter := filter,
      col := 0 }
  match findAggregate st1.aggs info with
  | some col =>
    -- Reuse branch: undo the adding of the args.
    ({ st1 with tempCols := st1.tempCols.take tempScopeColsBefore },
      { info with col := col })
  | none =>
    let outCol := st1.nextId
    let info := { info with col := outCol }
    let st2 : AggScopeState α :=
      { st1 with outCols := st1.outCols ++ [outCol], nextId := st1.nextId + 1 }
    let st3 : AggScopeState α :=
      if aggInIsTemp then st2
      else
        { st2 with
          aggInCols := st2.aggInCols ++ st2.tempCols.drop tempScopeColsBefore,
          tempCols := st2.tempCols.take tempScopeColsBefore }
    ({ st3 with aggs := st3.aggs ++ [info] }, info)

/-! ## Constant inliner (`pkg/sql/opt/norm/inline.go`) -/

/-- The scalar expression language over which the inliner operates: variable
references, the constant-value operators (`ConstOp`, `TrueOp`, `FalseOp`,
`NullOp`), and a representative sample of the "simple" operators the inliner
traverses (`EqOp`, `PlusOp`, `AndOp`, `NotOp`). -/
inductive SExpr where
  | var (col : ColumnID)
  | const (n : Int)
  | strue
  | sfalse
  | snull
  | eq (a b : SExpr)
  | plus (a b : SExpr)
  | and (a b : SExpr)
  | not (a : SExpr)
  deriving DecidableEq

/-- `opt.IsConstValueOp`: ConstOp, TrueOp, FalseOp, or NullOp. -/
def IsConstValueOp : SExpr → Bool
  | .const _ => true
  | .strue => true
  | .sfalse => true
  | .snull => true
  | _ => false

/-- One `memo.ProjectionsItem`: output column and defining element. -/
structure ProjectionsItem where
  col : ColumnID
  element : SExpr
  deriving DecidableEq

/-- The relational input shapes `extractColumn` scans: a Project operator's
projections, a Values operator's rows, or anything else. -/
inductive RelInput where
  | project (projections : List ProjectionsItem)
  | values (cols : List ColumnID) (rows : List (List SExpr))
  | other
  deriving DecidableEq

/-- `(c *CustomFuncs) FindInlinableConstants(input)` (lines 25–43): the set of
input columns synthesized as constant value expressions, for a Project or a
single-row Values operator. -/
def FindInlinableConstants (input : RelInput) : ColSet :=
  match input with
  | .project projections =>
    projections.foldl
      (fun cols item => if IsConstValueOp item.element then cols.Add item.col else cols)
      ColSet.empty
  | .values cols rows =>
    if rows.length = 1 then
      ((rows.headD []).zip cols).foldl
        (fun acc p => if IsConstValueOp p.1 then acc.Add p.2 else acc)
        ColSet.empty
    else ColSet.empty
  | .other => ColSet.empty

/-- `(c *CustomFuncs) extractColumn(input, col)` (lines 96–113): scan a
Project's projections, or a single-row Values operator's row, for the element
defining `col`; the closing panic is `none`. -/
def extractColumn (input : RelInput) (col : ColumnID) : Option SExpr :=
  match input with
  | .project projections =>
    (projections.find? (fun item => item.col == col)).map (·.element)
  | .values cols rows =>
    if rows.length = 1 then
      (((rows.headD []).zip cols).find? (fun p => p.2 == col)).map (·.1)
    else none
  | .other => none

/-- `(c *CustomFuncs) inlineConstants(e, input, constCols)` (lines 77–92):
recursively replace every variable reference to a column in `constCols` by the
element `extractColumn` finds for it; `c.f.Replace` applies the replacement to
each child and rebuilds the node. A panic inside `extractColumn` is `none`
(and propagates). -/
def inlineConstants (input : RelInput) (constCols : ColSet) : SExpr → Option SExpr
  | .var c => if constCols.Contains c then extractColumn input c else some (.var c)
  | .const n => some (.const n)
  | .strue => some .strue
  | .sfalse => some .sfalse
  | .snull => some .snull
  | .eq a b =>
    match inlineConstants input constCols a with
    | none => none
    | some a' =>
      match inlineConstants input constCols b with
      | none => none
      | some b' => some (.eq a' b')
  | .plus a b =>
    match inlineConstants input constCols a with
    | none => none
    | some a' =>
      match inlineConstants input constCols b with
      | none => none
      | some b' => some (.plus a' b')
  | .and a b =>
    match inlineConstants input constCols a with
    | none => none
    | some a' =>
      match inlineConstants input constCols b with
      | none => none
      | some b' => some (.and a' b')
  | .not a =>
    match inlineConstants input constCols a with
    | none => none
    | some a' => some (.not a')

/-- SQL-style three-valued values for the row semantics. -/
inductive Val where
  | int (n : Int)
  | bool (b : Bool)
  | null
  deriving DecidableEq

/-- Evaluation of a scalar expression over a row (an environment mapping each
column to its value), with NULL-propagating comparisons and arithmetic. -/
def evalS (env : ColumnID → Val) : SExpr → Val
  | .var c => env c
  | .const n => .int n
  | .strue => .bool true
  | .sfalse => .bool false
  | .snull => .null
  | .eq a b =>
    match evalS env a, evalS env b with
    | .null, _ => .null
    | _, .null => .null
    | v, w => .bool (decide (v = w))
  | .plus a b =>
    match evalS env a, evalS env b with
    | .int m, .int n => .int (m + n)
    | _, _ => .null
  | .and a b =>
    match evalS env a, evalS env b with
    | .bool x, .bool y => .bool (x && y)
    | _, _ => .null
  | .not a =>
    match evalS env a with
    | .bool x => .bool (!x)
    | _ => .null

/-- Whether the variable for column `c` occurs anywhere in the expression. -/
def occursVar (c : ColumnID) : SExpr → Bool
  | .var c' => c' == c
  | .const _ => false
  | .strue => false
  | .sfalse => false
  | .snull => false
  | .eq a b => occursVar c a || occursVar c b
  | .plus a b => occursVar c a || occursVar c b
  | .and a b => occursVar c a || occursVar c b
  | .not a => occursVar c a

/-- The concrete input of the spec's round-trip example:
`Project{a: 5, b: x+1}` with `a` = column 1, `b` = column 2, `x` = column 10. -/
def exampleProject : RelInput :=
  .project [⟨1, .const 5⟩, ⟨2, .plus (.var 10) (.const 1)⟩]

/-! ## Locality scoring (`pkg/sql/opt/xform/coster.go`, lines 610–708) -/

/-- One `roachpb.Tier`: a key/value locality level. -/
structure Tier where
  key : String
  value : String
  deriving DecidableEq

/-- `roachpb.Locality`: the node's ordered locality tiers. -/
structure Locality where
  tiers : List Tier
  deriving DecidableEq

/-- One `cat.Constraint`: key, value, and whether it is required (`+`) as
opposed to prohibited (`-`). -/
structure ZoneConstraint where
  key : String
  value : String
  required : Bool
  deriving DecidableEq

/-- A `cat.ConstraintSet` is a sequence of constraints. -/
abbrev ConstraintSet := List ZoneConstraint

/-- `cat.Zone` restricted to what `localityMatchScore` reads: the replica
constraint groups and the lease preferences. -/
structure Zone where
  replicaConstraints : List ConstraintSet
  leasePreferences : List ConstraintSet
  deriving DecidableEq

/-- The loop body of the `matchTier` closure (lines 624–658), carrying the
`foundNoMatch` flag. -/
def matchTierGo (tier : Tier) : List ZoneConstraint → Bool → Int
  | [], foundNoMatch => if foundNoMatch then -1 else 0
  | con :: rest, foundNoMatch =>
    if con.key ≠ tier.key then matchTierGo tier rest foundNoMatch
    else if con.value = tier.value then (if con.required then 1 else -1)
    else matchTierGo tier rest (foundNoMatch || con.required)

/-- `matchTier(tier, set)`: 0 if the key is absent (or only prohibited
constraints with non-matching values), +1 on a matching required constraint,
-1 otherwise. -/
def matchTier (tier : Tier) (set : ConstraintSet) : Int := matchTierGo tier set false

/-- The loop of the `matchConstraints` closure (lines 662–673), with the
running tier index and match count. -/
def matchConstraintsGo (set : ConstraintSet) : List Tier → Nat → Nat → Nat
  | [], _, matchCount => matchCount
  | tier :: rest, i, matchCount =>
    if matchTier tier set = 1 then matchConstraintsGo set rest (i + 1) (i + 1)
    else if matchTier tier set = -1 then matchCount
    else matchConstraintsGo set rest (i + 1) matchCount

/-- `matchConstraints(set)`: the number of tiers that match the constraint
set ("m" in the algorithm comment). -/
def matchConstraints (locality : Locality) (set : ConstraintSet) : Nat :=
  matchConstraintsGo set locality.tiers 0 0

/-- `intsets.MaxInt` on a 64-bit platform. -/
def intsetsMaxInt : Nat := 2 ^ 63 - 1

/-- `localityMatchScore(zone, locality)` (lines 610–708). Go's `float64`
arithmetic is modelled over `ℚ`; when `locality.Tiers` is empty and a
constraint group exists Go would produce NaN (0/0), which this model maps to
0 — every theorem below that touches that division assumes a non-empty tier
list. -/
def localityMatchScore (zone : Zone) (locality : Locality) : ℚ :=
  if zone.replicaConstraints.length = 0 ∧ zone.leasePreferences.length = 0 then 0
  else
    let constraintScore : ℚ :=
      if zone.replicaConstraints.length ≠ 0 then
        (((zone.replicaConstraints.map (matchConstraints locality)).foldl
            min intsetsMaxInt : Nat) : ℚ) / (locality.tiers.length : ℚ)
      else 0
    if zone.leasePreferences.length = 0 then constraintScore
    else
      let matchCount := matchConstraints locality (zone.leasePreferences.headD [])
      let leaseScore : ℚ := (matchCount : ℚ) / (locality.tiers.length : ℚ)
      (constraintScore * 2 + leaseScore) / 3

/-- The length of the longest locality prefix that ends in a +1 tier score and
contains no -1 tier score, computed structurally over the per-tier scores.
`prefixMatchLen_good`, `prefixMatchLen_maximal` and `prefixMatchLen_le_length`
below prove that this is exactly that longest-prefix length. -/
def prefixMatchLen : List Int → Nat
  | [] => 0
  | v :: rest =>
    if v = 1 then 1 + prefixMatchLen rest
    else if v = -1 then 0
    else if prefixMatchLen rest = 0 then 0 else 1 + prefixMatchLen rest

/-- A list of tier scores is a "good prefix" when it ends in +1 and contains
no -1. -/
def GoodPrefix (l : List Int) : Prop := l.getLast? = some 1 ∧ (-1 : Int) ∉ l

/-- The replica-constraint match fraction the claim describes, written from
the spec's words: longest matching prefix length (minimum across the replica
constraint groups) over the tier count; 0 with zero constraint groups. -/
def claimedReplicaFraction (zone : Zone) (locality : Locality) : ℚ :=
  if zone.replicaConstraints.length = 0 then 0
  else (((zone.replicaConstraints.map fun set =>
      prefixMatchLen (locality.tiers.map (fun tier => matchTier tier set))).foldl
        min intsetsMaxInt : Nat) : ℚ) / (locality.tiers.length : ℚ)

/-- The lease-preference match fraction the claim describes, written from the
spec's words: longest matching prefix length of the first lease preference
over the tier count; 0 with zero lease preferences. -/
def claimedLeaseFraction (zone : Zone) (locality : Locality) : ℚ :=
  if zone.leasePreferences.length = 0 then 0
  else (prefixMatchLen (locality.tiers.map
      (fun tier => matchTier tier (zone.leasePreferences.headD []))) : ℚ) /
    (locality.tiers.length : ℚ)

/-- The score formula asserted by the claim C7, written from the spec's words
and to be compared against the source embedding: unconditionally
`(2 × replica fraction + lease fraction) / 3`. -/
def claimedLocalityMatchScore (zone : Zone) (locality : Locality) : ℚ :=
  (2 * claimedReplicaFraction zone locality + claimedLeaseFraction zone locality) / 3

/-- One replica constraint group `[+region=us]`, no lease preferences. -/
def exZone : Zone := ⟨[[⟨"region", "us", true⟩]], []⟩

/-- Locality `[region=us]`. -/
def exLocality : Locality := ⟨[⟨"region", "us"⟩]⟩

/-! ## Cost model (`pkg/sql/opt/xform/coster.go`) -/

/-- `memo.Cost`, a `float64` in Go, modelled as an exact rational. -/
abbrev Cost := ℚ

/-- `cpuCostFactor = 0.01`. -/
def cpuCostFactor : Cost := 1 / 100

/-- `seqIOCostFactor = 1`. -/
def seqIOCostFactor : Cost := 1

/-- `randIOCostFactor = 4`. -/
def randIOCostFactor : Cost := 4

/-- `lookupJoinRetrieveRowCost = 2 * seqIOCostFactor`. -/
def lookupJoinRetrieveRowCost : Cost := 2 * seqIOCostFactor

/-- `latencyCostFactor = cpuCostFactor`. -/
def latencyCostFactor : Cost := cpuCostFactor

/-- `hugeCost = 1e100`, the sentinel used for expressions that violate a
hint. -/
def hugeCost : Cost := 10 ^ 100

/-- `memo.MaxCost` — the memo package is not in the corpus; *modelled from the
spec*: the maximum sentinel above every legal cost. In Go it is float64 +Inf;
it is modelled as `2^1024`, the first value beyond the float64 range. -/
def MaxCost : Cost := 2 ^ 1024

/-- The `coster` struct fields read by the cost formulas: the node's locality
and the cost perturbation fraction. -/
structure Coster where
  locality : Locality
  perturbation : ℚ

/-- The table/index metadata reached through `c.mem.Metadata()` in
`rowScanCost` (the `memo`/`cat` packages are not in the corpus; *modelled from
the spec* as per-index inputs): the index's column count and its zone. -/
structure IndexMeta where
  columnCount : Nat
  zone : Zone
  deriving DecidableEq

/-- The required physical properties consumed by the coster.
`ordering.ScanIsReverse` and `ordering.StreamingGroupingColOrdering` live in
the absent `ordering` package; *modelled from the spec* as given attributes of
the required properties for the candidate at hand: the number of required
ordering columns, whether the required ordering makes the scan run in reverse,
and the number of streaming (pre-ordered) grouping columns. -/
structure Required where
  numOrderingCols : Nat
  scanIsReverse : Bool
  streamingGroupingCols : Nat

/-- The loop of `rowSortCost` (lines 517–522): `cost` accumulates
`cpuCostFactor * eqProb^i` for `i < numKeyCols`, with `eqProb = 0.1`. -/
def rowSortCostGo : Nat → ℚ → ℚ → ℚ
  | 0, cost, _ => cost
  | n + 1, cost, c => rowSortCostGo n (cost + c) (c * (1 / 10))

/-- `(c *coster) rowSortCost(numKeyCols)` (lines 506–528). -/
def rowSortCost (numKeyCols : Nat) : Cost :=
  rowSortCostGo numKeyCols cpuCostFactor cpuCostFactor

/-- `(c *coster) rowScanCost(tabID, idxOrd, numScannedCols)` (lines 530–556),
with the metadata lookup abstracted into `idx`. -/
def rowScanCost (c : Coster) (idx : IndexMeta) (numScannedCols : Nat) : Cost :=
  let costFactor : Cost :=
    if c.locality.tiers.length ≠ 0 then
      cpuCostFactor + latencyCostFactor * (1 - localityMatchScore idx.zone c.locality)
    else cpuCostFactor
  ((idx.columnCount + numScannedCols : Nat) : ℚ) * costFactor

/-- The fields of a `memo.ScanExpr` read by `computeScanCost`: the index
flags, the actual index, the row-count estimate, the index metadata, the
number of scanned columns (`scan.Cols.Len()`), and whether the scan is
unconstrained. -/
structure ScanFields where
  forceIndex : Bool
  flagsIndex : Nat
  index : Nat
  rowCount : ℚ
  idx : IndexMeta
  numCols : Nat
  unconstrained : Bool

/-- The fields of a hash-join candidate read by `computeHashJoinCost`: the
`DisallowHashJoin` flag and the left/right/output row counts. -/
structure JoinFields where
  disallowHashJoin : Bool
  leftRowCount : ℚ
  rightRowCount : ℚ
  rowCount : ℚ

/-- The fields of a `memo.MergeJoinExpr` read by `computeMergeJoinCost`. -/
structure MergeJoinFields where
  leftRowCount : ℚ
  rightRowCount : ℚ
  rowCount : ℚ

/-- The fields of a `memo.LookupJoinExpr` read by `computeLookupJoinCost`:
input and output row counts, the number of looked-up columns
(`join.Cols.Difference(input cols).Len()`), the index metadata, and
`len(join.On)`. -/
structure LookupJoinFields where
  leftRowCount : ℚ
  rowCount : ℚ
  numLookupCols : Nat
  idx : IndexMeta
  onLen : Nat

/-- The fields of a `memo.ZigzagJoinExpr` read by `computeZigzagJoinCost`:
output row count, the two index metadatas, and the column counts of the two
sides after the intersection/difference bookkeeping. -/
structure ZigzagJoinFields where
  rowCount : ℚ
  leftIdx : IndexMeta
  rightIdx : IndexMeta
  leftColsLen : Nat
  rightColsLen : Nat

/-- The fields of a grouping candidate read by `computeGroupingCost`: output
and input row counts, the number of aggregations, and the number of grouping
columns. -/
structure GroupingFields where
  rowCount : ℚ
  inputRowCount : ℚ
  aggsCount : Nat
  groupingColCount : Nat

/-- A candidate expression, restricted per operator kind to the statistics,
flags and metadata its cost formula reads. -/
inductive RelCandidate where
  | sort (rowCount : ℚ)
  | scan (f : ScanFields)
  | virtualScan (rowCount : ℚ)
  | select (inputRowCount : ℚ)
  | project (rowCount : ℚ) (synthesizedColCount : Nat)
  | values (rowCount : ℚ)
  | hashJoin (f : JoinFields)
  | mergeJoin (f : MergeJoinFields)
  | indexJoin (leftRowCount : ℚ) (primaryIdx : IndexMeta) (numCols : Nat)
  | lookupJoin (f : LookupJoinFields)
  | zigzagJoin (f : ZigzagJoinFields)
  | setOp (isUnionAll : Bool) (leftRowCount rightRowCount rowCount : ℚ)
  | grouping (f : GroupingFields)
  | limit (rowCount : ℚ)
  | offset (rowCount : ℚ)
  | ordinality (rowCount : ℚ)
  | projectSet (rowCount : ℚ)
  | explain

/-- `computeSortCost` (lines 242–257); `log2` embeds `math.Log2`. -/
def computeSortCost (log2 : ℚ → ℚ) (rowCount : ℚ) (required : Required) : Cost :=
  let perRowCost := rowSortCost required.numOrderingCols
  let cost := rowCount * perRowCost
  if 1 < rowCount then cost * (1 + log2 rowCount) else cost

/-- `computeScanCost` (lines 259–286). -/
def computeScanCost (c : Coster) (log2 : ℚ → ℚ) (scan : ScanFields)
    (required : Required) : Cost :=
  if scan.forceIndex ∧ scan.flagsIndex ≠ scan.index then hugeCost
  else
    let rowCount := scan.rowCount
    let perRowCost := rowScanCost c scan.idx scan.numCols
    let perRowCost :=
      if required.scanIsReverse then
        if 1 < rowCount then perRowCost + log2 rowCount * cpuCostFactor else perRowCost
      else perRowCost
    let preferConstrainedScanCost : Cost :=
      if scan.unconstrained then cpuCostFactor else 0
    rowCount * (seqIOCostFactor + perRowCost) + preferConstrainedScanCost

/-- `computeVirtualScanCost` (lines 288–293). -/
def computeVirtualScanCost (rowCount : ℚ) : Cost := rowCount * cpuCostFactor

/-- `computeSelectCost` (lines 295–300). -/
def computeSelectCost (inputRowCount : ℚ) : Cost := inputRowCount * cpuCostFactor

/-- `computeProjectCost` (lines 302–311). -/
def computeProjectCost (rowCount : ℚ) (synthesizedColCount : Nat) : Cost :=
  rowCount * (synthesizedColCount : ℚ) * cpuCostFactor + rowCount * cpuCostFactor

/-- `computeValuesCost` (lines 313–315). -/
def computeValuesCost (rowCount : ℚ) : Cost := rowCount * cpuCostFactor

/-- `computeHashJoinCost` (lines 317–341): the right (hash-table) side gets
the larger 1.75 factor, the left side 1.25. -/
def computeHashJoinCost (f : JoinFields) : Cost :=
  if f.disallowHashJoin then hugeCost
  else
    ((1.25 : ℚ) * f.leftRowCount + (1.75 : ℚ) * f.rightRowCount) * cpuCostFactor +
      f.rowCount * cpuCostFactor

/-- `computeMergeJoinCost` (lines 343–354). -/
def computeMergeJoinCost (f : MergeJoinFields) : Cost :=
  (f.leftRowCount + f.rightRowCount) * cpuCostFactor + f.rowCount * cpuCostFactor

/-- `computeIndexJoinCost` (lines 356–365). -/
def computeIndexJoinCost (c : Coster) (leftRowCount : ℚ) (primaryIdx : IndexMeta)
    (numCols : Nat) : Cost :=
  leftRowCount * (cpuCostFactor + randIOCostFactor + rowScanCost c primaryIdx numCols)

/-- `computeLookupJoinCost` (lines 367–411). -/
def computeLookupJoinCost (c : Coster) (f : LookupJoinFields) : Cost :=
  let perLookupCost : Cost := randIOCostFactor
  let cost := f.leftRowCount * perLookupCost
  let perRowCost := lookupJoinRetrieveRowCost + rowScanCost c f.idx f.numLookupCols +
    cpuCostFactor * (f.onLen : ℚ)
  cost + f.rowCount * perRowCost

/-- `computeZigzagJoinCost` (lines 413–434). -/
def computeZigzagJoinCost (c : Coster) (f : ZigzagJoinFields) : Cost :=
  let scanCost := rowScanCost c f.leftIdx f.leftColsLen +
    rowScanCost c f.rightIdx f.rightColsLen
  f.rowCount * (2 * (cpuCostFactor + seqIOCostFactor) + scanCost)

/-- `computeSetCost` (lines 436–450). -/
def computeSetCost (isUnionAll : Bool) (leftRowCount rightRowCount rowCount : ℚ) : Cost :=
  let cost := rowCount * cpuCostFactor
  if isUnionAll then cost
  else cost + (leftRowCount + rightRowCount) * cpuCostFactor

/-- `computeGroupingCost` (lines 452–480); `required.streamingGroupingCols`
stands for `len(ordering.StreamingGroupingColOrdering(private, ...))`. -/
def computeGroupingCost (f : GroupingFields) (required : Required) : Cost :=
  let cost := f.rowCount * cpuCostFactor
  let cost := cost +
    f.inputRowCount * ((f.aggsCount + f.groupingColCount : Nat) : ℚ) * cpuCostFactor
  if 0 < f.groupingColCount then
    let hashCost := f.inputRowCount * cpuCostFactor
    let n := required.streamingGroupingCols
    cost + hashCost * (1 - (n : ℚ) / (f.groupingColCount : ℚ))
  else cost

/-- `computeLimitCost` (lines 482–486). -/
def computeLimitCost (rowCount : ℚ) : Cost := rowCount * cpuCostFactor

/-- `computeOffsetCost` (lines 488–492). -/
def computeOffsetCost (rowCount : ℚ) : Cost := rowCount * cpuCostFactor

/-- `computeOrdinalityCost` (lines 494–498). -/
def computeOrdinalityCost (rowCount : ℚ) : Cost := rowCount * cpuCostFactor

/-- `computeProjectSetCost` (lines 500–504). -/
def computeProjectSetCost (rowCount : ℚ) : Cost := rowCount * cpuCostFactor

/-- The operator-kind switch of `ComputeCost` (lines 147–208); the Explain
case leaves `cost` at its zero value. -/
def operatorCost (c : Coster) (log2 : ℚ → ℚ) (candidate : RelCandidate)
    (required : Required) : Cost :=
  match candidate with
  | .sort rowCount => computeSortCost log2 rowCount required
  | .scan f => computeScanCost c log2 f required
  | .virtualScan rowCount => computeVirtualScanCost rowCount
  | .select inputRowCount => computeSelectCost inputRowCount
  | .project rowCount synthesizedColCount => computeProjectCost rowCount synthesizedColCount
  | .values rowCount => computeValuesCost rowCount
  | .hashJoin f => computeHashJoinCost f
  | .mergeJoin f => computeMergeJoinCost f
  | .indexJoin leftRowCount primaryIdx numCols =>
    computeIndexJoinCost c leftRowCount primaryIdx numCols
  | .lookupJoin f => computeLookupJoinCost c f
  | .zigzagJoin f => computeZigzagJoinCost c f
  | .setOp isUnionAll l r out => computeSetCost isUnionAll l r out
  | .grouping f => computeGroupingCost f required
  | .limit rowCount => computeLimitCost rowCount
  | .offset rowCount => computeOffsetCost rowCount
  | .ordinality rowCount => computeOrdinalityCost rowCount
  | .projectSet rowCount => computeProjectSetCost rowCount
  | .explain => 0

/-- `(c *coster) ComputeCost(candidate, required)` (lines 145–240): per-
operator cost, plus one fixed setup `cpuCostFactor`; the assertion-failure
panic when the cost is not below `MaxCost` is `none`; the random draw
`rand.Float64()` is the explicit parameter `r` (in `[0,1)`); costs at or above
`hugeCost` are never perturbed, and perturbed costs are floored at zero. -/
def ComputeCost (c : Coster) (log2 : ℚ → ℚ) (r : ℚ) (candidate : RelCandidate)
    (required : Required) : Option Cost :=
  let cost := operatorCost c log2 candidate required + cpuCostFactor
  if ¬cost < MaxCost then none
  else if c.perturbation ≠ 0 then
    if cost < hugeCost then
      let multiplier := 2 * r - 1
      let cost := cost + cost * (c.perturbation * multiplier)
      some (if cost < 0 then 0 else cost)
    else some cost
  else some cost

/-- Row-count statistics are non-negative: the statistics module's invariant,
assumed as a hypothesis of the monotonicity theorem. -/
def NonNegStats : RelCandidate → Prop
  | .sort a => 0 ≤ a
  | .scan f => 0 ≤ f.rowCount
  | .virtualScan a => 0 ≤ a
  | .select a => 0 ≤ a
  | .project a _ => 0 ≤ a
  | .values a => 0 ≤ a
  | .hashJoin f => 0 ≤ f.leftRowCount ∧ 0 ≤ f.rightRowCount ∧ 0 ≤ f.rowCount
  | .mergeJoin f => 0 ≤ f.leftRowCount ∧ 0 ≤ f.rightRowCount ∧ 0 ≤ f.rowCount
  | .indexJoin a _ _ => 0 ≤ a
  | .lookupJoin f => 0 ≤ f.leftRowCount ∧ 0 ≤ f.rowCount
  | .zigzagJoin f => 0 ≤ f.rowCount
  | .setOp _ l r out => 0 ≤ l ∧ 0 ≤ r ∧ 0 ≤ out
  | .grouping f => 0 ≤ f.rowCount ∧ 0 ≤ f.inputRowCount
  | .limit a => 0 ≤ a
  | .offset a => 0 ≤ a
  | .ordinality a => 0 ≤ a
  | .projectSet a => 0 ≤ a
  | .explain => True

/-- For a grouping candidate, the streaming grouping columns derived from the
required ordering are among the grouping columns — the invariant of
`ordering.StreamingGroupingColOrdering` (outside the corpus), assumed as a
hypothesis. -/
def StreamValid : RelCandidate → Required → Prop
  | .grouping f, required => required.streamingGroupingCols ≤ f.groupingColCount
  | _, _ => True

/-- `RowCountLE e e'` says `e'` is `e` with the input-side row-count estimates
increased and everything else (operator kind, flags, metadata, remaining
statistics) held equal. -/
inductive RowCountLE : RelCandidate → RelCandidate → Prop where
  | sort (a a' : ℚ) : a ≤ a' → RowCountLE (.sort a) (.sort a')
  | scan (f : ScanFields) (a a' : ℚ) : a ≤ a' →
      RowCountLE (.scan { f with rowCount := a }) (.scan { f with rowCount := a' })
  | virtualScan (a a' : ℚ) : a ≤ a' → RowCountLE (.virtualScan a) (.virtualScan a')
  | select (a a' : ℚ) : a ≤ a' → RowCountLE (.select a) (.select a')
  | project (s : Nat) (a a' : ℚ) : a ≤ a' → RowCountLE (.project a s) (.project a' s)
  | values (a a' : ℚ) : a ≤ a' → RowCountLE (.values a) (.values a')
  | hashJoin (f : JoinFields) (l l' r r' : ℚ) : l ≤ l' → r ≤ r' →
      RowCountLE (.hashJoin { f with leftRowCount := l, rightRowCount := r })
        (.hashJoin { f with leftRowCount := l', rightRowCount := r' })
  | mergeJoin (f : MergeJoinFields) (l l' r r' : ℚ) : l ≤ l' → r ≤ r' →
      RowCountLE (.mergeJoin { f with leftRowCount := l, rightRowCount := r })
        (.mergeJoin { f with leftRowCount := l', rightRowCount := r' })
  | indexJoin (idx : IndexMeta) (n : Nat) (a a' : ℚ) : a ≤ a' →
      RowCountLE (.indexJoin a idx n) (.indexJoin a' idx n)
  | lookupJoin (f : LookupJoinFields) (a a' : ℚ) : a ≤ a' →
      RowCountLE (.lookupJoin { f with leftRowCount := a })
        (.lookupJoin { f with leftRowCount := a' })
  | zigzagJoin (f : ZigzagJoinFields) (a a' : ℚ) : a ≤ a' →
      RowCountLE (.zigzagJoin { f with rowCount := a })
        (.zigzagJoin { f with rowCount := a' })
  | setOp (u : Bool) (out l l' r r' : ℚ) : l ≤ l' → r ≤ r' →
      RowCountLE (.setOp u l r out) (.setOp u l' r' out)
  | grouping (f : GroupingFields) (a a' : ℚ) : a ≤ a' →
      RowCountLE (.grouping { f with inputRowCount := a })
        (.grouping { f with inputRowCount := a' })
  | limit (a a' : ℚ) : a ≤ a' → RowCountLE (.limit a) (.limit a')
  | offset (a a' : ℚ) : a ≤ a' → RowCountLE (.offset a) (.offset a')
  | ordinality (a a' : ℚ) : a ≤ a' → RowCountLE (.ordinality a) (.ordinality a')
  | projectSet (a a' : ℚ) : a ≤ a' → RowCountLE (.projectSet a) (.projectSet a')
  | explain : RowCountLE .explain .explain
end CockroachOpt

namespace CockroachOpt

/-- Looking up a key in an association list that ends with that key always
succeeds. -/
theorem lookup_append_self_isSome (l : List (String × ColumnID)) (s : String)
    (c : ColumnID) : ((l ++ [(s, c)]).lookup s).isSome = true := by
  induction l with
  | nil => simp [List.lookup]
  | cons hd tl ih =>
    obtain ⟨k, v⟩ := hd
    by_cases h : s = k
    · simp [List.lookup, h]
    · have hb : (s == k) = false := beq_false_of_ne h
      simp only [List.cons_append, List.lookup, hb]
      exact ih
end CockroachOpt

/-- C1: `constructGroupBy` constructs the scalar grouping variant exactly when
the grouping column set is empty, and the ordinary GroupBy variant otherwise;
an aggregation with zero grouping columns is therefore always lowered to
`ConstructScalarGroupBy`. -/
theorem constructGroupBy_scalar_iff_empty {ρ α : Type} (input : ρ)
    (groupingColSet : CockroachOpt.ColSet)
    (aggCols : List (CockroachOpt.ScopeColumn α)) (ordering : List CockroachOpt.ColumnID)
    (res : CockroachOpt.GroupByExprResult ρ α)
    (h : CockroachOpt.constructGroupBy input groupingColSet aggCols ordering = some res) :
    res.isScalar = groupingColSet.Empty := by
  unfold CockroachOpt.constructGroupBy at h
  cases hl : CockroachOpt.constructGroupByLoop aggCols CockroachOpt.ColSet.empty [] with
  | none => rw [hl] at h; simp at h
  | some aggs =>
    rw [hl] at h
    by_cases hg : groupingColSet.Empty
    · simp only [hg, if_true, Option.some.injEq] at h
      rw [← h, hg]
      rfl
    · simp only [Bool.not_eq_true] at hg
      simp only [hg, Bool.false_eq_true, if_false, Option.some.injEq] at h
      rw [← h, hg]
      rfl

/-- Witness for C1: a concrete one-aggregate, zero-grouping-column call is
lowered to the scalar variant. -/
theorem constructGroupBy_scalar_iff_empty_witness :
    CockroachOpt.constructGroupBy (ρ := Unit) (α := Unit) () CockroachOpt.ColSet.empty
        [⟨1, some ()⟩] [] =
      some (.scalarGroupBy () [⟨(), 1⟩]
        ⟨CockroachOpt.ColSet.empty, [], CockroachOpt.ColSet.empty⟩) ∧
    (CockroachOpt.GroupByExprResult.scalarGroupBy (ρ := Unit) (α := Unit) () [⟨(), 1⟩]
        ⟨CockroachOpt.ColSet.empty, [], CockroachOpt.ColSet.empty⟩).isScalar =
      CockroachOpt.ColSet.empty.Empty := by
  refine ⟨rfl, ?_⟩
  exact constructGroupBy_scalar_iff_empty () CockroachOpt.ColSet.empty [⟨1, some ()⟩] [] _ rfl

/-- C2: `buildGrouping` deduplicates GROUP BY expressions by symbolic string:
an expression whose string was already recorded adds no grouping column (from
any state, `a, a, …` builds the same state as `a, …`), and from the initial
state `GROUP BY a, a` builds exactly one grouping column and the same state as
`GROUP BY a`. -/
theorem buildGrouping_dedup {E : Type} (exprStr : E → String) (a : E) (l : List E)
    (st : CockroachOpt.GroupingState) :
    CockroachOpt.buildGroupingLoop exprStr (a :: a :: l) st =
        CockroachOpt.buildGroupingLoop exprStr (a :: l) st ∧
      CockroachOpt.buildGroupingLoop exprStr [a, a] CockroachOpt.initGroupingState =
        CockroachOpt.buildGroupingLoop exprStr [a] CockroachOpt.initGroupingState ∧
      (CockroachOpt.buildGroupingLoop exprStr [a, a]
          CockroachOpt.initGroupingState).outCols.length = 1 := by
  have key : ∀ (l' : List E) (st' : CockroachOpt.GroupingState),
      CockroachOpt.buildGroupingLoop exprStr (a :: a :: l') st' =
        CockroachOpt.buildGroupingLoop exprStr (a :: l') st' := by
    intro l' st'
    by_cases h : ((st'.groupStrs.lookup (exprStr a)).isSome : Prop)
    · simp [CockroachOpt.buildGroupingLoop, h]
    · simp only [Bool.not_eq_true] at h
      simp [CockroachOpt.buildGroupingLoop, h,
        CockroachOpt.lookup_append_self_isSome]
  refine ⟨key l st, key [] CockroachOpt.initGroupingState, ?_⟩
  rw [key [] CockroachOpt.initGroupingState]
  simp [CockroachOpt.buildGroupingLoop, CockroachOpt.initGroupingState, List.lookup]
namespace CockroachOpt

/-- If no matching aggregate exists, appending one makes `findAggregate` find
it (and return its output column). -/
theorem findAggregate_append {α : Type} [DecidableEq α] (l : List (AggregateInfo α))
    (d : String) (distinct : Bool) (args : List α) (filter : Option α) (c : ColumnID)
    (h : findAggregate l ⟨d, distinct, args, filter, 0⟩ = none) :
    findAggregate (l ++ [⟨d, distinct, args, filter, c⟩]) ⟨d, distinct, args, filter, 0⟩ =
      some c := by
  unfold findAggregate at h ⊢
  rw [List.find?_append]
  have hnone : l.find? (fun a =>
      decide (a.defName = d ∧ a.args = args ∧ a.distinct = distinct ∧ a.filter = filter)) =
      none := by
    cases hf : l.find? (fun a =>
        decide (a.defName = d ∧ a.args = args ∧ a.distinct = distinct ∧ a.filter = filter)) with
    | none => rfl
    | some x => rw [hf] at h; simp at h
  rw [hnone]
  simp [List.find?]

/-- The reuse branch of `buildAggregateFunction`: when a matching aggregate
already exists, its output column is returned, the temporary columns are
discarded, and only the column allocator has advanced. -/
theorem buildAggregateFunction_reuse {α : Type} [DecidableEq α] (st : AggScopeState α)
    (d : String) (distinct : Bool) (args : List α) (filter : Option α) (flag : Bool)
    (c : ColumnID) (h : findAggregate st.aggs ⟨d, distinct, args, filter, 0⟩ = some c) :
    buildAggregateFunction st d distinct args filter flag =
      ({ st with nextId := st.nextId + (args.length + if filter.isSome then 1 else 0) },
        ⟨d, distinct, args, filter, c⟩) := by
  unfold buildAggregateFunction
  simp only [h, List.take_left]

/-- The fresh branch of `buildAggregateFunction`: when no matching aggregate
exists, a new output column is synthesized, the argument columns are kept (in
the temporary scope or moved to the grouping input scope), and the info is
appended to the aggregate list. -/
theorem buildAggregateFunction_fresh {α : Type} [DecidableEq α] (st : AggScopeState α)
    (d : String) (distinct : Bool) (args : List α) (filter : Option α) (flag : Bool)
    (h : findAggregate st.aggs ⟨d, distinct, args, filter, 0⟩ = none) :
    buildAggregateFunction st d distinct args filter flag =
      ({ tempCols := if flag then
            st.tempCols ++ (List.range (args.length + if filter.isSome then 1 else 0)).map
              (fun i => st.nextId + i)
          else st.tempCols,
         aggInCols := if flag then st.aggInCols
          else st.aggInCols ++ (List.range (args.length + if filter.isSome then 1 else 0)).map
            (fun i => st.nextId + i),
         outCols := st.outCols ++ [st.nextId + (args.length + if filter.isSome then 1 else 0)],
         aggs := st.aggs ++
          [⟨d, distinct, args, filter,
            st.nextId + (args.length + if filter.isSome then 1 else 0)⟩],
         nextId := st.nextId + (args.length + if filter.isSome then 1 else 0) + 1 },
        ⟨d, distinct, args, filter,
          st.nextId + (args.length + if filter.isSome then 1 else 0)⟩) := by
  unfold buildAggregateFunction
  simp only [h]
  cases flag with
  | true => simp
  | false => simp [List.take_left, List.drop_left]
end CockroachOpt

/-- C3: `buildAggregateFunction` deduplicates aggregate calls: building the
same (definition, distinct, args, filter) a second time reuses the existing
output column, discards the temporary argument columns, and appends nothing to
the scope's aggregate list; a fresh call appends exactly one entry (so
`SELECT sum(x), sum(x)` constructs exactly one underlying aggregate). -/
theorem buildAggregateFunction_dedup {α : Type} [DecidableEq α]
    (st : CockroachOpt.AggScopeState α) (d : String) (distinct : Bool) (args : List α)
    (filter : Option α) (flag1 flag2 : Bool) :
    (CockroachOpt.buildAggregateFunction
          (CockroachOpt.buildAggregateFunction st d distinct args filter flag1).1
          d distinct args filter flag2).2.col
        = (CockroachOpt.buildAggregateFunction st d distinct args filter flag1).2.col
      ∧ (CockroachOpt.buildAggregateFunction
          (CockroachOpt.buildAggregateFunction st d distinct args filter flag1).1
          d distinct args filter flag2).1.aggs
        = (CockroachOpt.buildAggregateFunction st d distinct args filter flag1).1.aggs
      ∧ (CockroachOpt.buildAggregateFunction
          (CockroachOpt.buildAggregateFunction st d distinct args filter flag1).1
          d distinct args filter flag2).1.tempCols
        = (CockroachOpt.buildAggregateFunction st d distinct args filter flag1).1.tempCols
      ∧ (CockroachOpt.buildAggregateFunction
          (CockroachOpt.buildAggregateFunction st d distinct args filter flag1).1
          d distinct args filter flag2).1.outCols
        = (CockroachOpt.buildAggregateFunction st d distinct args filter flag1).1.outCols
      ∧ (CockroachOpt.buildAggregateFunction st d distinct args filter flag1).1.aggs.length
        ≤ st.aggs.length + 1
      ∧ (CockroachOpt.findAggregate st.aggs ⟨d, distinct, args, filter, 0⟩ = none →
          (CockroachOpt.buildAggregateFunction st d distinct args filter flag1).1.aggs
            = st.aggs ++ [(CockroachOpt.buildAggregateFunction st d distinct args filter flag1).2]) := by
  cases hf : CockroachOpt.findAggregate st.aggs ⟨d, distinct, args, filter, 0⟩ with
  | some c =>
    have e1 := CockroachOpt.buildAggregateFunction_reuse st d distinct args filter flag1 c hf
    have hf' : CockroachOpt.findAggregate
        (CockroachOpt.buildAggregateFunction st d distinct args filter flag1).1.aggs
        ⟨d, distinct, args, filter, 0⟩ = some c := by
      rw [e1]; exact hf
    have e2 := CockroachOpt.buildAggregateFunction_reuse _ d distinct args filter flag2 c hf'
    rw [e2, e1]
    simp [hf]
  | none =>
    have e1 := CockroachOpt.buildAggregateFunction_fresh st d distinct args filter flag1 hf
    have hf2 : CockroachOpt.findAggregate
        (CockroachOpt.buildAggregateFunction st d distinct args filter flag1).1.aggs
        ⟨d, distinct, args, filter, 0⟩ =
        some (st.nextId + (args.length + if filter.isSome then 1 else 0)) := by
      rw [e1]
      exact CockroachOpt.findAggregate_append st.aggs d distinct args filter _ hf
    have e2 := CockroachOpt.buildAggregateFunction_reuse _ d distinct args filter flag2 _ hf2
    rw [e2, e1]
    simp

/-- Witness for C3: the fresh-branch implication discharged at a concrete
state: a first `sum` call appends its info to the empty aggregate list. -/
theorem buildAggregateFunction_dedup_witness :
    CockroachOpt.findAggregate (α := Unit) [] ⟨"sum", false, [()], none, 0⟩ = none ∧
    (CockroachOpt.buildAggregateFunction (α := Unit) ⟨[], [], [], [], 1⟩
        "sum" false [()] none true).1.aggs
      = [] ++ [(CockroachOpt.buildAggregateFunction (α := Unit) ⟨[], [], [], [], 1⟩
        "sum" false [()] none true).2] := by
  refine ⟨rfl, ?_⟩
  exact (buildAggregateFunction_dedup (α := Unit) ⟨[], [], [], [], 1⟩
    "sum" false [()] none true true).2.2.2.2.2 rfl
namespace CockroachOpt

/-- If every claimed constant column is found in the input and its defining
element evaluates, on the current row, to that column's value, then
`inlineConstants` succeeds and preserves the value of the expression. -/
theorem inlineConstants_preserves (input : RelInput) (constCols : ColSet)
    (env : ColumnID → Val)
    (hconst : ∀ c, constCols.Contains c = true →
      ∃ d, extractColumn input c = some d ∧ evalS env d = env c) :
    ∀ e, ∃ e', inlineConstants input constCols e = some e' ∧ evalS env e' = evalS env e := by
  intro e
  induction e with
  | var c =>
    by_cases h : constCols.Contains c = true
    · obtain ⟨d, hd, he⟩ := hconst c h
      exact ⟨d, by simp [inlineConstants, h, hd], by simp [evalS, he]⟩
    · simp only [Bool.not_eq_true] at h
      exact ⟨.var c, by simp [inlineConstants, h], rfl⟩
  | const n => exact ⟨_, rfl, rfl⟩
  | strue => exact ⟨_, rfl, rfl⟩
  | sfalse => exact ⟨_, rfl, rfl⟩
  | snull => exact ⟨_, rfl, rfl⟩
  | eq a b iha ihb =>
    obtain ⟨a', ha, hea⟩ := iha
    obtain ⟨b', hb, heb⟩ := ihb
    exact ⟨.eq a' b', by simp [inlineConstants, ha, hb], by simp [evalS, hea, heb]⟩
  | plus a b iha ihb =>
    obtain ⟨a', ha, hea⟩ := iha
    obtain ⟨b', hb, heb⟩ := ihb
    exact ⟨.plus a' b', by simp [inlineConstants, ha, hb], by simp [evalS, hea, heb]⟩
  | and a b iha ihb =>
    obtain ⟨a', ha, hea⟩ := iha
    obtain ⟨b', hb, heb⟩ := ihb
    exact ⟨.and a' b', by simp [inlineConstants, ha, hb], by simp [evalS, hea, heb]⟩
  | not a iha =>
    obtain ⟨a', ha, hea⟩ := iha
    exact ⟨.not a', by simp [inlineConstants, ha], by simp [evalS, hea]⟩

/-- If a claimed constant column occurs in the expression but cannot be found
in the input, `inlineConstants` hits the `extractColumn` assertion failure. -/
theorem inlineConstants_panics (input : RelInput) (constCols : ColSet) (c : ColumnID)
    (hc : constCols.Contains c = true) (hmiss : extractColumn input c = none) :
    ∀ e, occursVar c e = true → inlineConstants input constCols e = none := by
  intro e
  induction e with
  | var c' =>
    intro hocc
    have : c' = c := by simpa [occursVar] using hocc
    subst this
    simp [inlineConstants, hc, hmiss]
  | const n => intro hocc; simp [occursVar] at hocc
  | strue => intro hocc; simp [occursVar] at hocc
  | sfalse => intro hocc; simp [occursVar] at hocc
  | snull => intro hocc; simp [occursVar] at hocc
  | eq a b iha ihb =>
    intro hocc
    rcases Bool.or_eq_true_iff.mp (by simpa [occursVar] using hocc) with h | h
    · simp [inlineConstants, iha h]
    · cases ha : inlineConstants input constCols a with
      | none => simp [inlineConstants, ha]
      | some a' => simp [inlineConstants, ha, ihb h]
  | plus a b iha ihb =>
    intro hocc
    rcases Bool.or_eq_true_iff.mp (by simpa [occursVar] using hocc) with h | h
    · simp [inlineConstants, iha h]
    · cases ha : inlineConstants input constCols a with
      | none => simp [inlineConstants, ha]
      | some a' => simp [inlineConstants, ha, ihb h]
  | and a b iha ihb =>
    intro hocc
    rcases Bool.or_eq_true_iff.mp (by simpa [occursVar] using hocc) with h | h
    · simp [inlineConstants, iha h]
    · cases ha : inlineConstants input constCols a with
      | none => simp [inlineConstants, ha]
      | some a' => simp [inlineConstants, ha, ihb h]
  | not a iha =>
    intro hocc
    simp only [occursVar] at hocc
    simp [inlineConstants, iha hocc]

/-- An expression in which no claimed constant column occurs is returned
unchanged. -/
theorem inlineConstants_id (input : RelInput) (constCols : ColSet) :
    ∀ e, (∀ c, constCols.Contains c = true → occursVar c e = false) →
      inlineConstants input constCols e = some e := by
  intro e
  induction e with
  | var c' =>
    intro h
    have hnc : constCols.Contains c' = false := by
      by_contra hcon
      simp only [Bool.not_eq_false] at hcon
      have := h c' hcon
      simp [occursVar] at this
    simp [inlineConstants, hnc]
  | const n => intro _; rfl
  | strue => intro _; rfl
  | sfalse => intro _; rfl
  | snull => intro _; rfl
  | eq a b iha ihb =>
    intro h
    have ha := iha fun c hc => by have := h c hc; simp [occursVar] at this; exact this.1
    have hb := ihb fun c hc => by have := h c hc; simp [occursVar] at this; exact this.2
    simp [inlineConstants, ha, hb]
  | plus a b iha ihb =>
    intro h
    have ha := iha fun c hc => by have := h c hc; simp [occursVar] at this; exact this.1
    have hb := ihb fun c hc => by have := h c hc; simp [occursVar] at this; exact this.2
    simp [inlineConstants, ha, hb]
  | and a b iha ihb =>
    intro h
    have ha := iha fun c hc => by have := h c hc; simp [occursVar] at this; exact this.1
    have hb := ihb fun c hc => by have := h c hc; simp [occursVar] at this; exact this.2
    simp [inlineConstants, ha, hb]
  | not a iha =>
    intro h
    have ha := iha fun c hc => by have := h c hc; simpa [occursVar] using this
    simp [inlineConstants, ha]
end CockroachOpt

/-- C4: `inlineConstants` replaces every variable referencing a `constCols`
column by that column's defining element from the input (failing with the
assertion if it cannot be found) and leaves all other sub-expressions
unchanged, preserving the value of the expression on every row on which the
constant columns have their defining values; in particular the filter `a = 5`
over `Project{a: 5, b: x+1}` is rewritten to `5 = 5`, and rows pass as
before. -/
theorem inlineConstants_spec :
    (∀ (input : CockroachOpt.RelInput) (constCols : CockroachOpt.ColSet)
        (env : CockroachOpt.ColumnID → CockroachOpt.Val),
      (∀ c, constCols.Contains c = true →
        ∃ d, CockroachOpt.extractColumn input c = some d ∧ CockroachOpt.evalS env d = env c) →
      ∀ e, ∃ e', CockroachOpt.inlineConstants input constCols e = some e' ∧
        CockroachOpt.evalS env e' = CockroachOpt.evalS env e) ∧
    (∀ (input : CockroachOpt.RelInput) (constCols : CockroachOpt.ColSet)
        (c : CockroachOpt.ColumnID),
      constCols.Contains c = true → CockroachOpt.extractColumn input c = none →
      ∀ e, CockroachOpt.occursVar c e = true →
        CockroachOpt.inlineConstants input constCols e = none) ∧
    (∀ (input : CockroachOpt.RelInput) (constCols : CockroachOpt.ColSet) (e : CockroachOpt.SExpr),
      (∀ c, constCols.Contains c = true → CockroachOpt.occursVar c e = false) →
      CockroachOpt.inlineConstants input constCols e = some e) ∧
    CockroachOpt.FindInlinableConstants CockroachOpt.exampleProject =
      CockroachOpt.ColSet.empty.Add 1 ∧
    CockroachOpt.inlineConstants CockroachOpt.exampleProject (CockroachOpt.ColSet.empty.Add 1)
        (.eq (.var 1) (.const 5)) = some (.eq (.const 5) (.const 5)) ∧
    (∀ env : CockroachOpt.ColumnID → CockroachOpt.Val, env 1 = .int 5 →
      CockroachOpt.evalS env (.eq (.const 5) (.const 5)) =
        CockroachOpt.evalS env (.eq (.var 1) (.const 5))) := by
  refine ⟨CockroachOpt.inlineConstants_preserves,
    fun input constCols c hc hmiss => CockroachOpt.inlineConstants_panics input constCols c hc hmiss,
    fun input constCols e h => CockroachOpt.inlineConstants_id input constCols e h,
    rfl, rfl, ?_⟩
  intro env h
  simp [CockroachOpt.evalS, h]

/-- Witness for C4: the preservation conjunct at the spec's example, with the
row `a = 5` that the Project emits. -/
theorem inlineConstants_spec_witness :
    ∃ e', CockroachOpt.inlineConstants CockroachOpt.exampleProject
        (CockroachOpt.ColSet.empty.Add 1) (.eq (.var 1) (.const 5)) = some e' ∧
      CockroachOpt.evalS (fun _ => .int 5) e' =
        CockroachOpt.evalS (fun _ => .int 5) (.eq (.var 1) (.const 5)) := by
  refine inlineConstants_spec.1 CockroachOpt.exampleProject
    (CockroachOpt.ColSet.empty.Add 1) (fun _ => .int 5) ?_ (.eq (.var 1) (.const 5))
  intro c hc
  have hc1 : c = 1 := by
    simpa [CockroachOpt.ColSet.Contains, CockroachOpt.ColSet.Add,
      CockroachOpt.ColSet.empty] using hc
  subst hc1
  exact ⟨.const 5, rfl, rfl⟩
namespace CockroachOpt

theorem prefixMatchLen_le_length (l : List Int) : prefixMatchLen l ≤ l.length := by
  induction l with
  | nil => simp [prefixMatchLen]
  | cons v rest ih =>
    simp only [prefixMatchLen, List.length_cons]
    split_ifs <;> omega

/-- A non-`-1` score prepended to a non-empty good prefix gives a good
prefix. -/
theorem goodPrefix_cons (v : Int) (l : List Int) (hl : l ≠ []) :
    GoodPrefix (v :: l) ↔ (v ≠ -1 ∧ GoodPrefix l) := by
  obtain ⟨x, xs, rfl⟩ := List.exists_cons_of_ne_nil hl
  unfold GoodPrefix
  rw [List.getLast?_cons_cons]
  simp only [List.mem_cons, not_or]
  constructor
  · rintro ⟨hlast, hv, hmem⟩
    exact ⟨fun h => hv h.symm, hlast, hmem⟩
  · rintro ⟨hv, hlast, hmem⟩
    exact ⟨hlast, fun h => hv h.symm, hmem⟩

/-- When `prefixMatchLen` is positive, the prefix of that length is a good
prefix: it ends in a +1 tier and contains no -1 tier. -/
theorem prefixMatchLen_good (l : List Int) :
    prefixMatchLen l = 0 ∨ GoodPrefix (l.take (prefixMatchLen l)) := by
  induction l with
  | nil => left; rfl
  | cons v rest ih =>
    have hstep : v ≠ -1 → prefixMatchLen rest ≠ 0 →
        GoodPrefix ((v :: rest).take (1 + prefixMatchLen rest)) := by
      intro hv hm
      rcases ih with h0 | hg
      · exact absurd h0 hm
      have hne : rest.take (prefixMatchLen rest) ≠ [] := by
        intro hnil
        have hlen : (rest.take (prefixMatchLen rest)).length =
            min (prefixMatchLen rest) rest.length := by simp
        rw [hnil] at hlen
        have := prefixMatchLen_le_length rest
        simp only [List.length_nil] at hlen
        omega
      have : (v :: rest).take (1 + prefixMatchLen rest) =
          v :: rest.take (prefixMatchLen rest) := by
        rw [Nat.add_comm, List.take_succ_cons]
      rw [this, goodPrefix_cons v _ hne]
      exact ⟨hv, hg⟩
    by_cases h1 : v = 1
    · subst h1
      simp only [prefixMatchLen, if_pos rfl]
      by_cases hm : prefixMatchLen rest = 0
      · right
        rw [hm]
        exact ⟨rfl, by simp⟩
      · exact Or.inr (hstep (by decide) hm)
    · by_cases hm1 : v = -1
      · left
        simp [prefixMatchLen, h1, hm1]
      · simp only [prefixMatchLen, if_neg h1, if_neg hm1]
        by_cases hm : prefixMatchLen rest = 0
        · left; simp [hm]
        · rw [if_neg hm]
          exact Or.inr (hstep hm1 hm)

/-- `prefixMatchLen` is maximal: any good prefix is no longer than it. -/
theorem prefixMatchLen_maximal (l : List Int) (k : Nat) (hk : k ≤ l.length)
    (hg : GoodPrefix (l.take k)) : k ≤ prefixMatchLen l := by
  induction l generalizing k with
  | nil =>
    simp only [List.length_nil, Nat.le_zero] at hk
    subst hk
    exact Nat.zero_le _
  | cons v rest ih =>
    cases k with
    | zero => exact Nat.zero_le _
    | succ j =>
      rw [List.take_succ_cons] at hg
      simp only [List.length_cons] at hk
      cases j with
      | zero =>
        simp only [List.take_zero] at hg
        have hv : v = 1 := by
          have := hg.1
          simpa using this
        subst hv
        simp [prefixMatchLen]
      | succ j' =>
        have hne : rest.take (j' + 1) ≠ [] := by
          intro hnil
          have hlen : (rest.take (j' + 1)).length = min (j' + 1) rest.length := by simp
          rw [hnil] at hlen
          simp only [List.length_nil] at hlen
          omega
        rw [goodPrefix_cons v _ hne] at hg
        have hrec := ih (j' + 1) (by omega) hg.2
        have hv : v ≠ -1 := hg.1
        by_cases h1 : v = 1
        · subst h1
          simp only [prefixMatchLen, if_pos rfl, if_true]
          omega
        · simp only [prefixMatchLen, if_neg h1, if_neg hv]
          rw [if_neg (by omega)]
          omega

/-- The `matchConstraints` loop computes the longest-good-prefix length: with
running index `i` and running count `mc`, it returns `mc` when no further +1
prefix exists and `i +` the remaining prefix length otherwise. -/
theorem matchConstraintsGo_eq (set : ConstraintSet) (tiers : List Tier) (i mc : Nat) :
    matchConstraintsGo set tiers i mc =
      if prefixMatchLen (tiers.map (fun tier => matchTier tier set)) = 0 then mc
      else i + prefixMatchLen (tiers.map (fun tier => matchTier tier set)) := by
  induction tiers generalizing i mc with
  | nil => simp [matchConstraintsGo, prefixMatchLen]
  | cons t rest ih =>
    by_cases h1 : matchTier t set = 1
    · simp only [matchConstraintsGo, List.map_cons, prefixMatchLen, h1, ih,
        if_pos rfl, if_true]
      split_ifs <;> omega
    · by_cases hm1 : matchTier t set = -1
      · simp [matchConstraintsGo, List.map_cons, prefixMatchLen, h1, hm1]
      · simp only [matchConstraintsGo, List.map_cons, prefixMatchLen, if_neg h1,
          if_neg hm1, ih]
        split_ifs <;> omega

/-- `matchConstraints` equals the longest-good-prefix length of the per-tier
scores. -/
theorem matchConstraints_eq (locality : Locality) (set : ConstraintSet) :
    matchConstraints locality set =
      prefixMatchLen (locality.tiers.map (fun tier => matchTier tier set)) := by
  unfold matchConstraints
  rw [matchConstraintsGo_eq]
  split_ifs with h <;> omega

/-- Branch-wise description of the source's `localityMatchScore` in terms of
the claim's match fractions. -/
theorem localityMatchScore_eq (zone : Zone) (locality : Locality) :
    localityMatchScore zone locality =
      if zone.replicaConstraints.length = 0 ∧ zone.leasePreferences.length = 0 then 0
      else if zone.leasePreferences.length = 0 then claimedReplicaFraction zone locality
      else (claimedReplicaFraction zone locality * 2 +
        claimedLeaseFraction zone locality) / 3 := by
  have hmap : zone.replicaConstraints.map (matchConstraints locality) =
      zone.replicaConstraints.map fun set =>
        prefixMatchLen (locality.tiers.map (fun tier => matchTier tier set)) :=
    List.map_congr_left fun set _ => matchConstraints_eq locality set
  unfold localityMatchScore claimedReplicaFraction claimedLeaseFraction
  by_cases hc : zone.replicaConstraints.length = 0 <;>
    by_cases hp : zone.leasePreferences.length = 0 <;>
      simp [hc, hp, hmap, matchConstraints_eq]
end CockroachOpt

/-- Counterexample to C7: for the zone `[+region=us]` with no lease
preferences and the locality `region=us`, the source returns 1 (the plain
replica-constraint score), while the claimed formula
`(2×replica + lease)/3` gives 2/3. -/
theorem localityMatchScore_formula_counterexample :
    CockroachOpt.localityMatchScore CockroachOpt.exZone CockroachOpt.exLocality = 1 ∧
    CockroachOpt.claimedLocalityMatchScore CockroachOpt.exZone CockroachOpt.exLocality
      = 2 / 3 ∧
    CockroachOpt.localityMatchScore CockroachOpt.exZone CockroachOpt.exLocality ≠
      CockroachOpt.claimedLocalityMatchScore CockroachOpt.exZone CockroachOpt.exLocality := by
  have hfold : (CockroachOpt.exZone.replicaConstraints.map fun set =>
      CockroachOpt.prefixMatchLen (CockroachOpt.exLocality.tiers.map
        (fun tier => CockroachOpt.matchTier tier set))).foldl
          min CockroachOpt.intsetsMaxInt = 1 := by decide
  have h1 : CockroachOpt.claimedReplicaFraction CockroachOpt.exZone
      CockroachOpt.exLocality = 1 := by
    unfold CockroachOpt.claimedReplicaFraction
    rw [if_neg (by decide), hfold]
    norm_num [CockroachOpt.exLocality]
  have h2 : CockroachOpt.localityMatchScore CockroachOpt.exZone
      CockroachOpt.exLocality = 1 := by
    rw [CockroachOpt.localityMatchScore_eq, if_neg (by decide), if_pos (by decide)]
    exact h1
  have h3 : CockroachOpt.claimedLeaseFraction CockroachOpt.exZone
      CockroachOpt.exLocality = 0 := by
    unfold CockroachOpt.claimedLeaseFraction
    rw [if_pos (by decide)]
  have h4 : CockroachOpt.claimedLocalityMatchScore CockroachOpt.exZone
      CockroachOpt.exLocality = 2 / 3 := by
    unfold CockroachOpt.claimedLocalityMatchScore
    rw [h1, h3]
    norm_num
  exact ⟨h2, h4, by rw [h2, h4]; norm_num⟩

/-- C7 (amended): `localityMatchScore` returns
`(2 × replica fraction + lease fraction)/3` only when at least one lease
preference exists; with zero lease preferences it returns the replica fraction
alone, and with zero constraints and zero lease preferences it returns exactly
0. The fractions are the longest-matching-prefix lengths over the tier count,
as the claim states. -/
theorem localityMatchScore_amended (zone : CockroachOpt.Zone)
    (locality : CockroachOpt.Locality) (_ht : locality.tiers ≠ []) :
    (zone.leasePreferences.length ≠ 0 →
      CockroachOpt.localityMatchScore zone locality =
        CockroachOpt.claimedLocalityMatchScore zone locality) ∧
    (zone.leasePreferences.length = 0 →
      CockroachOpt.localityMatchScore zone locality =
        CockroachOpt.claimedReplicaFraction zone locality) ∧
    (zone.replicaConstraints.length = 0 ∧ zone.leasePreferences.length = 0 →
      CockroachOpt.localityMatchScore zone locality = 0) := by
  rw [CockroachOpt.localityMatchScore_eq]
  refine ⟨?_, ?_, ?_⟩
  · intro hp
    rw [if_neg (fun h => hp h.2), if_neg hp]
    unfold CockroachOpt.claimedLocalityMatchScore
    ring
  · intro hp
    by_cases hc : zone.replicaConstraints.length = 0
    · rw [if_pos ⟨hc, hp⟩]
      unfold CockroachOpt.claimedReplicaFraction
      rw [if_pos hc]
    · rw [if_neg (fun h => hc h.1), if_pos hp]
  · rintro ⟨hc, hp⟩
    rw [if_pos ⟨hc, hp⟩]

/-- Witness for C7's amended theorem: at the `[+region=us]` zone and the
`region=us` locality (no lease preferences), the score equals the replica
fraction alone. -/
theorem localityMatchScore_amended_witness :
    CockroachOpt.exLocality.tiers ≠ [] ∧
    (CockroachOpt.exZone.leasePreferences.length = 0 →
      CockroachOpt.localityMatchScore CockroachOpt.exZone CockroachOpt.exLocality =
        CockroachOpt.claimedReplicaFraction CockroachOpt.exZone CockroachOpt.exLocality) :=
  ⟨by decide,
    (localityMatchScore_amended CockroachOpt.exZone CockroachOpt.exLocality
      (by decide)).2.1⟩
namespace CockroachOpt

theorem rowSortCostGo_nonneg (n : Nat) (cost c : ℚ) (hcost : 0 ≤ cost) (hc : 0 ≤ c) :
    0 ≤ rowSortCostGo n cost c := by
  induction n generalizing cost c with
  | zero => exact hcost
  | succ m ih => exact ih (cost + c) (c * (1 / 10)) (by linarith) (by nlinarith)

theorem rowSortCost_nonneg (n : Nat) : 0 ≤ rowSortCost n :=
  rowSortCostGo_nonneg n cpuCostFactor cpuCostFactor (by norm_num [cpuCostFactor])
    (by norm_num [cpuCostFactor])

theorem foldl_min_le_init (l : List Nat) (init : Nat) : l.foldl min init ≤ init := by
  induction l generalizing init with
  | nil => exact Nat.le_refl _
  | cons x xs ih => exact Nat.le_trans (ih (min init x)) (Nat.min_le_left _ _)

theorem foldl_min_le_head (x : Nat) (xs : List Nat) (init : Nat) :
    (x :: xs).foldl min init ≤ x := by
  simpa using Nat.le_trans (foldl_min_le_init xs (min init x)) (Nat.min_le_right _ _)

theorem claimedReplicaFraction_nonneg (zone : Zone) (locality : Locality) :
    0 ≤ claimedReplicaFraction zone locality := by
  unfold claimedReplicaFraction
  split_ifs
  · exact le_refl 0
  · positivity

theorem claimedLeaseFraction_nonneg (zone : Zone) (locality : Locality) :
    0 ≤ claimedLeaseFraction zone locality := by
  unfold claimedLeaseFraction
  split_ifs
  · exact le_refl 0
  · positivity

theorem claimedReplicaFraction_le_one (zone : Zone) (locality : Locality) :
    claimedReplicaFraction zone locality ≤ 1 := by
  unfold claimedReplicaFraction
  split_ifs with h
  · norm_num
  · cases hg : zone.replicaConstraints with
    | nil => simp [hg] at h
    | cons g gs =>
      have hle : ((g :: gs).map fun set =>
          prefixMatchLen (locality.tiers.map (fun tier => matchTier tier set))).foldl
            min intsetsMaxInt ≤ locality.tiers.length := by
        simp only [List.map_cons]
        refine Nat.le_trans (foldl_min_le_head _ _ _) ?_
        simpa using prefixMatchLen_le_length
          (locality.tiers.map (fun tier => matchTier tier g))
      rcases Nat.eq_zero_or_pos locality.tiers.length with ht | ht
      · rw [ht]
        norm_num
      · rw [div_le_one (by exact_mod_cast ht)]
        exact_mod_cast hle

theorem claimedLeaseFraction_le_one (zone : Zone) (locality : Locality) :
    claimedLeaseFraction zone locality ≤ 1 := by
  unfold claimedLeaseFraction
  split_ifs with h
  · norm_num
  · have hle : prefixMatchLen (locality.tiers.map
        (fun tier => matchTier tier (zone.leasePreferences.headD []))) ≤
        locality.tiers.length := by
      simpa using prefixMatchLen_le_length (locality.tiers.map
        (fun tier => matchTier tier (zone.leasePreferences.headD [])))
    rcases Nat.eq_zero_or_pos locality.tiers.length with ht | ht
    · rw [ht]
      norm_num
    · rw [div_le_one (by exact_mod_cast ht)]
      exact_mod_cast hle

theorem localityMatchScore_nonneg (zone : Zone) (locality : Locality) :
    0 ≤ localityMatchScore zone locality := by
  rw [localityMatchScore_eq]
  have h1 := claimedReplicaFraction_nonneg zone locality
  have h2 := claimedLeaseFraction_nonneg zone locality
  split_ifs <;> linarith

theorem localityMatchScore_le_one (zone : Zone) (locality : Locality) :
    localityMatchScore zone locality ≤ 1 := by
  rw [localityMatchScore_eq]
  have h1 := claimedReplicaFraction_le_one zone locality
  have h2 := claimedLeaseFraction_le_one zone locality
  have h3 := claimedReplicaFraction_nonneg zone locality
  have h4 := claimedLeaseFraction_nonneg zone locality
  split_ifs <;> linarith

theorem rowScanCost_nonneg (c : Coster) (idx : IndexMeta) (n : Nat) :
    0 ≤ rowScanCost c idx n := by
  unfold rowScanCost
  have h1 := localityMatchScore_le_one idx.zone c.locality
  apply mul_nonneg (by positivity)
  split_ifs
  · have hc : cpuCostFactor = 1 / 100 := rfl
    unfold latencyCostFactor
    rw [hc]
    nlinarith
  · norm_num [cpuCostFactor]
end CockroachOpt

/-- C5: for every scan whose flags force an index different from the index the
scan uses, ComputeCost returns a defined cost at or above the hugeCost
sentinel, for every perturbation setting, random draw, and row-count
estimate. -/
theorem forcedIndexScan_sentinel (c : CockroachOpt.Coster) (log2 : ℚ → ℚ) (r : ℚ)
    (scan : CockroachOpt.ScanFields) (required : CockroachOpt.Required)
    (hforce : scan.forceIndex = true) (hidx : scan.flagsIndex ≠ scan.index) :
    ∃ k, CockroachOpt.ComputeCost c log2 r (.scan scan) required = some k ∧
      CockroachOpt.hugeCost ≤ k := by
  have hop : CockroachOpt.operatorCost c log2 (.scan scan) required =
      CockroachOpt.hugeCost := by
    show CockroachOpt.computeScanCost c log2 scan required = CockroachOpt.hugeCost
    unfold CockroachOpt.computeScanCost
    rw [if_pos ⟨hforce, hidx⟩]
  refine ⟨CockroachOpt.hugeCost + CockroachOpt.cpuCostFactor, ?_,
    by norm_num [CockroachOpt.hugeCost, CockroachOpt.cpuCostFactor]⟩
  unfold CockroachOpt.ComputeCost
  rw [hop]
  have hmax : CockroachOpt.hugeCost + CockroachOpt.cpuCostFactor <
      CockroachOpt.MaxCost := by
    norm_num [CockroachOpt.hugeCost, CockroachOpt.cpuCostFactor, CockroachOpt.MaxCost]
  rw [if_neg (not_not_intro hmax)]
  by_cases hp : c.perturbation ≠ 0
  · rw [if_pos hp, if_neg (by norm_num [CockroachOpt.hugeCost, CockroachOpt.cpuCostFactor])]
  · rw [if_neg hp]

/-- Witness for C5: a concrete forced-index scan with a mismatched index. -/
theorem forcedIndexScan_sentinel_witness :
    ((true : Bool) = true) ∧ (1 : Nat) ≠ 0 ∧
    ∃ k, CockroachOpt.ComputeCost ⟨⟨[]⟩, 0⟩ (fun _ => 0) 0
        (.scan ⟨true, 1, 0, 7, ⟨2, ⟨[], []⟩⟩, 3, false⟩) ⟨0, false, 0⟩ = some k ∧
      CockroachOpt.hugeCost ≤ k :=
  ⟨rfl, by decide,
    forcedIndexScan_sentinel ⟨⟨[]⟩, 0⟩ (fun _ => 0) 0
      ⟨true, 1, 0, 7, ⟨2, ⟨[], []⟩⟩, 3, false⟩ ⟨0, false, 0⟩ rfl (by decide)⟩

/-- Counterexample to C8: the right input is weighted by the *larger*
constant: moving the single-row relation from the left input to the right
input strictly raises the hash-join cost, which contradicts a smaller right
weight. -/
theorem computeHashJoinCost_right_weight_counterexample :
    CockroachOpt.computeHashJoinCost ⟨false, 1, 0, 0⟩ <
      CockroachOpt.computeHashJoinCost ⟨false, 0, 1, 0⟩ := by
  norm_num [CockroachOpt.computeHashJoinCost, CockroachOpt.cpuCostFactor]

/-- C8 (amended): in computeHashJoinCost the right (hash-table) input's row
count is weighted by a larger constant factor (1.75) than the left input's
(1.25), so that between two otherwise symmetric join orderings the one whose
right input is the smaller relation receives the strictly lower cost. -/
theorem computeHashJoinCost_prefers_smaller_right (L R out : ℚ) (h : R < L) :
    CockroachOpt.computeHashJoinCost ⟨false, L, R, out⟩ <
      CockroachOpt.computeHashJoinCost ⟨false, R, L, out⟩ := by
  unfold CockroachOpt.computeHashJoinCost
  norm_num [CockroachOpt.cpuCostFactor]
  linarith

/-- Witness for C8's amended theorem: right input of 1 row versus left input
of 2 rows. -/
theorem computeHashJoinCost_prefers_smaller_right_witness :
    (1 : ℚ) < 2 ∧
    CockroachOpt.computeHashJoinCost ⟨false, 2, 1, 3⟩ <
      CockroachOpt.computeHashJoinCost ⟨false, 1, 2, 3⟩ :=
  ⟨by norm_num, computeHashJoinCost_prefers_smaller_right 2 1 3 (by norm_num)⟩

/-- C10: when the cost after the per-operator formula plus the fixed setup CPU
cost reaches the hugeCost sentinel, ComputeCost skips the perturbation: runs
with any perturbation fractions and any random draws return identical
results. -/
theorem sentinel_cost_not_perturbed (c : CockroachOpt.Coster) (p' : ℚ)
    (log2 : ℚ → ℚ) (r r' : ℚ) (candidate : CockroachOpt.RelCandidate)
    (required : CockroachOpt.Required)
    (hhuge : CockroachOpt.hugeCost ≤
      CockroachOpt.operatorCost c log2 candidate required + CockroachOpt.cpuCostFactor) :
    CockroachOpt.ComputeCost c log2 r candidate required =
      CockroachOpt.ComputeCost ⟨c.locality, p'⟩ log2 r' candidate required := by
  have hop : CockroachOpt.operatorCost ⟨c.locality, p'⟩ log2 candidate required =
      CockroachOpt.operatorCost c log2 candidate required := by
    cases c
    cases candidate <;> rfl
  unfold CockroachOpt.ComputeCost
  rw [hop]
  by_cases hm : CockroachOpt.operatorCost c log2 candidate required +
      CockroachOpt.cpuCostFactor < CockroachOpt.MaxCost
  · rw [if_neg (not_not_intro hm), if_neg (not_not_intro hm)]
    have hnot : ¬ CockroachOpt.operatorCost c log2 candidate required +
        CockroachOpt.cpuCostFactor < CockroachOpt.hugeCost := not_lt.mpr hhuge
    by_cases hp1 : c.perturbation ≠ 0 <;> by_cases hp2 : p' ≠ 0
    · rw [if_pos hp1, if_pos hp2, if_neg hnot, if_neg hnot]
    · rw [if_pos hp1, if_neg hp2, if_neg hnot]
    · rw [if_neg hp1, if_pos hp2, if_neg hnot]
    · rw [if_neg hp1, if_neg hp2]
  · rw [if_pos hm, if_pos hm]

/-- Witness for C10: a concrete disallowed hash join costed with perturbation
1/2 and draw 1/4 versus perturbation 3/4 and draw 9/10. -/
theorem sentinel_cost_not_perturbed_witness :
    (CockroachOpt.hugeCost ≤
      CockroachOpt.operatorCost ⟨⟨[]⟩, 1/2⟩ (fun _ => 0)
          (.hashJoin ⟨true, 5, 6, 7⟩) ⟨0, false, 0⟩ + CockroachOpt.cpuCostFactor) ∧
    CockroachOpt.ComputeCost ⟨⟨[]⟩, 1/2⟩ (fun _ => 0) (1/4)
        (.hashJoin ⟨true, 5, 6, 7⟩) ⟨0, false, 0⟩ =
      CockroachOpt.ComputeCost ⟨⟨[]⟩, 3/4⟩ (fun _ => 0) (9/10)
        (.hashJoin ⟨true, 5, 6, 7⟩) ⟨0, false, 0⟩ := by
  have hh : CockroachOpt.hugeCost ≤
      CockroachOpt.operatorCost ⟨⟨[]⟩, 1/2⟩ (fun _ => 0)
        (.hashJoin ⟨true, 5, 6, 7⟩) ⟨0, false, 0⟩ + CockroachOpt.cpuCostFactor := by
    have hop : CockroachOpt.operatorCost ⟨⟨[]⟩, 1/2⟩ (fun _ => 0)
        (.hashJoin ⟨true, 5, 6, 7⟩) ⟨0, false, 0⟩ = CockroachOpt.hugeCost := rfl
    rw [hop]
    norm_num [CockroachOpt.hugeCost, CockroachOpt.cpuCostFactor]
  exact ⟨hh, sentinel_cost_not_perturbed ⟨⟨[]⟩, 1/2⟩ (3/4) (fun _ => 0) (1/4) (9/10)
    (.hashJoin ⟨true, 5, 6, 7⟩) ⟨0, false, 0⟩ hh⟩
namespace CockroachOpt

theorem cpuCostFactor_nonneg : (0 : ℚ) ≤ cpuCostFactor := by norm_num [cpuCostFactor]

/-- The per-operator cost switch is monotone in the input row counts, for
every operator kind, given non-negative statistics, a `log2` that is monotone
and non-negative above 1, and the streaming-columns invariant. -/
theorem operatorCost_mono (c : Coster) (log2 : ℚ → ℚ)
    (hlog0 : ∀ x : ℚ, 1 < x → 0 ≤ log2 x)
    (hlogm : ∀ x y : ℚ, 1 < x → x ≤ y → log2 x ≤ log2 y)
    (required : Required) (e e' : RelCandidate)
    (hnn : NonNegStats e) (hst : StreamValid e required) (hle : RowCountLE e e') :
    operatorCost c log2 e required ≤ operatorCost c log2 e' required := by
  have hcpu := cpuCostFactor_nonneg
  cases hle with
  | sort a a' h =>
    have ha : (0 : ℚ) ≤ a := hnn
    have hp := rowSortCost_nonneg required.numOrderingCols
    dsimp only [operatorCost]
    unfold computeSortCost
    set p := rowSortCost required.numOrderingCols with hpdef
    by_cases h1 : (1 : ℚ) < a
    · have h1' : (1 : ℚ) < a' := lt_of_lt_of_le h1 h
      rw [if_pos h1, if_pos h1']
      have e2 : a * p ≤ a' * p := mul_le_mul_of_nonneg_right h hp
      have hl0 : 0 ≤ log2 a := hlog0 a h1
      have hlm : log2 a ≤ log2 a' := hlogm a a' h1 h
      have e1 : 0 ≤ a * p := mul_nonneg ha hp
      exact mul_le_mul e2 (by linarith) (by linarith) (le_trans e1 e2)
    · by_cases h1' : (1 : ℚ) < a'
      · rw [if_neg h1, if_pos h1']
        have e2 : a * p ≤ a' * p := mul_le_mul_of_nonneg_right h hp
        have hl0 : 0 ≤ log2 a' := hlog0 a' h1'
        have ha' : 0 ≤ a' * p := mul_nonneg (by linarith) hp
        nlinarith
      · rw [if_neg h1, if_neg h1']
        exact mul_le_mul_of_nonneg_right h hp
  | scan f a a' h =>
    have ha : (0 : ℚ) ≤ a := hnn
    dsimp only [operatorCost]
    unfold computeScanCost
    dsimp only
    by_cases hfi : f.forceIndex = true ∧ f.flagsIndex ≠ f.index
    · rw [if_pos hfi, if_pos hfi]
    · rw [if_neg hfi, if_neg hfi]
      set b := rowScanCost c f.idx f.numCols with hbdef
      have hb : 0 ≤ b := rowScanCost_nonneg c f.idx f.numCols
      have hseq : (0 : ℚ) ≤ seqIOCostFactor := by norm_num [seqIOCostFactor]
      have t1 : a * (seqIOCostFactor + b) ≤ a' * (seqIOCostFactor + b) :=
        mul_le_mul_of_nonneg_right h (by linarith)
      by_cases hrev : required.scanIsReverse = true
      · rw [if_pos hrev, if_pos hrev]
        by_cases h1 : (1 : ℚ) < a
        · have h1' : (1 : ℚ) < a' := lt_of_lt_of_le h1 h
          rw [if_pos h1, if_pos h1']
          have hl0 : 0 ≤ log2 a := hlog0 a h1
          have hlm : log2 a ≤ log2 a' := hlogm a a' h1 h
          have hx1 : (0 : ℚ) ≤ seqIOCostFactor + (b + log2 a * cpuCostFactor) := by
            nlinarith
          have := mul_le_mul h
            (show seqIOCostFactor + (b + log2 a * cpuCostFactor) ≤
              seqIOCostFactor + (b + log2 a' * cpuCostFactor) by nlinarith)
            hx1 (by linarith)
          linarith
        · by_cases h1' : (1 : ℚ) < a'
          · rw [if_neg h1, if_pos h1']
            have hl0 : 0 ≤ log2 a' := hlog0 a' h1'
            have t2 : a' * (seqIOCostFactor + b) ≤
                a' * (seqIOCostFactor + (b + log2 a' * cpuCostFactor)) := by
              have h0 : (0 : ℚ) ≤ log2 a' * cpuCostFactor := mul_nonneg hl0 hcpu
              have ha' : (0 : ℚ) ≤ a' := by linarith
              exact mul_le_mul_of_nonneg_left (by linarith) ha'
            linarith
          · rw [if_neg h1, if_neg h1']
            linarith
      · rw [if_neg hrev, if_neg hrev]
        linarith
  | virtualScan a a' h =>
    dsimp only [operatorCost]
    unfold computeVirtualScanCost
    exact mul_le_mul_of_nonneg_right h hcpu
  | select a a' h =>
    dsimp only [operatorCost]
    unfold computeSelectCost
    exact mul_le_mul_of_nonneg_right h hcpu
  | project s a a' h =>
    dsimp only [operatorCost]
    unfold computeProjectCost
    have hs : (0 : ℚ) ≤ (s : ℚ) := by positivity
    have t1 : a * (s : ℚ) * cpuCostFactor ≤ a' * (s : ℚ) * cpuCostFactor :=
      mul_le_mul_of_nonneg_right (mul_le_mul_of_nonneg_right h hs) hcpu
    have t2 : a * cpuCostFactor ≤ a' * cpuCostFactor := mul_le_mul_of_nonneg_right h hcpu
    linarith
  | values a a' h =>
    dsimp only [operatorCost]
    unfold computeValuesCost
    exact mul_le_mul_of_nonneg_right h hcpu
  | hashJoin f l l' r r' hl hr =>
    dsimp only [operatorCost]
    unfold computeHashJoinCost
    dsimp only
    by_cases hd : f.disallowHashJoin = true
    · rw [if_pos hd, if_pos hd]
    · rw [if_neg hd, if_neg hd]
      have t1 : ((1.25 : ℚ) * l + (1.75 : ℚ) * r) * cpuCostFactor ≤
          ((1.25 : ℚ) * l' + (1.75 : ℚ) * r') * cpuCostFactor :=
        mul_le_mul_of_nonneg_right (by linarith) hcpu
      linarith
  | mergeJoin f l l' r r' hl hr =>
    dsimp only [operatorCost]
    unfold computeMergeJoinCost
    dsimp only
    have t1 : (l + r) * cpuCostFactor ≤ (l' + r') * cpuCostFactor :=
      mul_le_mul_of_nonneg_right (by linarith) hcpu
    linarith
  | indexJoin idx n a a' h =>
    dsimp only [operatorCost]
    unfold computeIndexJoinCost
    have hb := rowScanCost_nonneg c idx n
    have hcoef : (0 : ℚ) ≤ cpuCostFactor + randIOCostFactor + rowScanCost c idx n := by
      unfold cpuCostFactor randIOCostFactor
      linarith
    exact mul_le_mul_of_nonneg_right h hcoef
  | lookupJoin f a a' h =>
    dsimp only [operatorCost]
    unfold computeLookupJoinCost
    dsimp only
    have hr : (0 : ℚ) ≤ randIOCostFactor := by norm_num [randIOCostFactor]
    have t1 : a * randIOCostFactor ≤ a' * randIOCostFactor :=
      mul_le_mul_of_nonneg_right h hr
    linarith
  | zigzagJoin f a a' h =>
    dsimp only [operatorCost]
    unfold computeZigzagJoinCost
    dsimp only
    have hb1 := rowScanCost_nonneg c f.leftIdx f.leftColsLen
    have hb2 := rowScanCost_nonneg c f.rightIdx f.rightColsLen
    have hcoef : (0 : ℚ) ≤ 2 * (cpuCostFactor + seqIOCostFactor) +
        (rowScanCost c f.leftIdx f.leftColsLen + rowScanCost c f.rightIdx f.rightColsLen) := by
      unfold cpuCostFactor seqIOCostFactor
      linarith
    exact mul_le_mul_of_nonneg_right h hcoef
  | setOp u out l l' r r' hl hr =>
    dsimp only [operatorCost]
    unfold computeSetCost
    dsimp only
    cases u with
    | true => simp
    | false =>
      simp only [Bool.false_eq_true, if_false]
      have t1 : (l + r) * cpuCostFactor ≤ (l' + r') * cpuCostFactor :=
        mul_le_mul_of_nonneg_right (by linarith) hcpu
      linarith
  | grouping f a a' h =>
    have hst' : required.streamingGroupingCols ≤ f.groupingColCount := hst
    dsimp only [operatorCost]
    unfold computeGroupingCost
    dsimp only
    by_cases hg : 0 < f.groupingColCount
    · rw [if_pos hg, if_pos hg]
      have hfrac : (required.streamingGroupingCols : ℚ) / (f.groupingColCount : ℚ) ≤ 1 := by
        rw [div_le_one (by exact_mod_cast hg)]
        exact_mod_cast hst'
      have hk : (0 : ℚ) ≤ ((f.aggsCount + f.groupingColCount : Nat) : ℚ) := by positivity
      have t1 : a * ((f.aggsCount + f.groupingColCount : Nat) : ℚ) * cpuCostFactor ≤
          a' * ((f.aggsCount + f.groupingColCount : Nat) : ℚ) * cpuCostFactor :=
        mul_le_mul_of_nonneg_right (mul_le_mul_of_nonneg_right h hk) hcpu
      have t2 : a * cpuCostFactor *
            (1 - (required.streamingGroupingCols : ℚ) / (f.groupingColCount : ℚ)) ≤
          a' * cpuCostFactor *
            (1 - (required.streamingGroupingCols : ℚ) / (f.groupingColCount : ℚ)) :=
        mul_le_mul_of_nonneg_right (mul_le_mul_of_nonneg_right h hcpu) (by linarith)
      linarith
    · rw [if_neg hg, if_neg hg]
      have hk : (0 : ℚ) ≤ ((f.aggsCount + f.groupingColCount : Nat) : ℚ) := by positivity
      have t1 : a * ((f.aggsCount + f.groupingColCount : Nat) : ℚ) * cpuCostFactor ≤
          a' * ((f.aggsCount + f.groupingColCount : Nat) : ℚ) * cpuCostFactor :=
        mul_le_mul_of_nonneg_right (mul_le_mul_of_nonneg_right h hk) hcpu
      linarith
  | limit a a' h =>
    dsimp only [operatorCost]
    unfold computeLimitCost
    exact mul_le_mul_of_nonneg_right h hcpu
  | offset a a' h =>
    dsimp only [operatorCost]
    unfold computeOffsetCost
    exact mul_le_mul_of_nonneg_right h hcpu
  | ordinality a a' h =>
    dsimp only [operatorCost]
    unfold computeOrdinalityCost
    exact mul_le_mul_of_nonneg_right h hcpu
  | projectSet a a' h =>
    dsimp only [operatorCost]
    unfold computeProjectSetCost
    exact mul_le_mul_of_nonneg_right h hcpu
  | explain => exact le_refl _
end CockroachOpt

/-- C6: with perturbation disabled and all other statistics, properties and
metadata held equal, ComputeCost is monotone non-decreasing in the input
row-count estimates, for every operator kind. -/
theorem computeCost_monotone (c : CockroachOpt.Coster) (log2 : ℚ → ℚ) (r : ℚ)
    (hp : c.perturbation = 0)
    (hlog0 : ∀ x : ℚ, 1 < x → 0 ≤ log2 x)
    (hlogm : ∀ x y : ℚ, 1 < x → x ≤ y → log2 x ≤ log2 y)
    (required : CockroachOpt.Required) (e e' : CockroachOpt.RelCandidate)
    (hnn : CockroachOpt.NonNegStats e) (hst : CockroachOpt.StreamValid e required)
    (hle : CockroachOpt.RowCountLE e e') (k k' : CockroachOpt.Cost)
    (hk : CockroachOpt.ComputeCost c log2 r e required = some k)
    (hk' : CockroachOpt.ComputeCost c log2 r e' required = some k') :
    k ≤ k' := by
  have hmono := CockroachOpt.operatorCost_mono c log2 hlog0 hlogm required e e' hnn hst hle
  unfold CockroachOpt.ComputeCost at hk hk'
  rw [hp] at hk hk'
  simp only [ne_eq, eq_self_iff_true, not_true_eq_false, if_false] at hk hk'
  by_cases h1 : CockroachOpt.operatorCost c log2 e required + CockroachOpt.cpuCostFactor <
      CockroachOpt.MaxCost
  · by_cases h2 : CockroachOpt.operatorCost c log2 e' required +
        CockroachOpt.cpuCostFactor < CockroachOpt.MaxCost
    · rw [if_neg (not_not_intro h1)] at hk
      rw [if_neg (not_not_intro h2)] at hk'
      simp only [Option.some.injEq] at hk hk'
      rw [← hk, ← hk']
      linarith
    · rw [if_pos h2] at hk'
      exact absurd hk' (by simp)
  · rw [if_pos h1] at hk
    exact absurd hk (by simp)

/-- Witness for C6: a concrete Select whose input row count grows from 1 to 2,
with perturbation 0 and the zero log2. -/
theorem computeCost_monotone_witness :
    ∃ k k' : CockroachOpt.Cost,
      CockroachOpt.ComputeCost ⟨⟨[]⟩, 0⟩ (fun _ => 0) 0 (.select 1) ⟨0, false, 0⟩ =
        some k ∧
      CockroachOpt.ComputeCost ⟨⟨[]⟩, 0⟩ (fun _ => 0) 0 (.select 2) ⟨0, false, 0⟩ =
        some k' ∧
      k ≤ k' := by
  have hk : CockroachOpt.ComputeCost ⟨⟨[]⟩, 0⟩ (fun _ => 0) 0 (.select 1) ⟨0, false, 0⟩ =
      some (CockroachOpt.operatorCost ⟨⟨[]⟩, 0⟩ (fun _ => 0) (.select 1) ⟨0, false, 0⟩ +
        CockroachOpt.cpuCostFactor) := by
    unfold CockroachOpt.ComputeCost
    rw [if_neg (not_not_intro (by norm_num [CockroachOpt.operatorCost,
      CockroachOpt.computeSelectCost, CockroachOpt.cpuCostFactor, CockroachOpt.MaxCost]))]
    norm_num
  have hk' : CockroachOpt.ComputeCost ⟨⟨[]⟩, 0⟩ (fun _ => 0) 0 (.select 2) ⟨0, false, 0⟩ =
      some (CockroachOpt.operatorCost ⟨⟨[]⟩, 0⟩ (fun _ => 0) (.select 2) ⟨0, false, 0⟩ +
        CockroachOpt.cpuCostFactor) := by
    unfold CockroachOpt.ComputeCost
    rw [if_neg (not_not_intro (by norm_num [CockroachOpt.operatorCost,
      CockroachOpt.computeSelectCost, CockroachOpt.cpuCostFactor, CockroachOpt.MaxCost]))]
    norm_num
  refine ⟨_, _, hk, hk', ?_⟩
  exact computeCost_monotone ⟨⟨[]⟩, 0⟩ (fun _ => 0) 0 rfl
    (fun x _ => le_refl 0) (fun x y _ _ => le_refl 0) ⟨0, false, 0⟩ (.select 1) (.select 2)
    (by norm_num [CockroachOpt.NonNegStats]) (by trivial)
    (CockroachOpt.RowCountLE.select 1 2 (by norm_num)) _ _ hk hk'

/-- C9: for all ColSets A and B and every ColumnID x,
`A.Union(B).Contains(x) = A.Contains(x) || B.Contains(x)`. The embedding is
pure, so `Union` constructs a new set and leaves its arguments unchanged by
construction. -/
theorem colset_union_contains (A B : CockroachOpt.ColSet) (x : CockroachOpt.ColumnID) :
    (A.Union B).Contains x = (A.Contains x || B.Contains x) := by
  simp [CockroachOpt.ColSet.Union, CockroachOpt.ColSet.Contains, Finset.mem_union]
